import Mathlib

/-!
Verification of the execution-scheduling core of the repository
(comfy_execution/utils.py and the expected-outputs analyzer):
the ExecutionContext value object, the ambient current-context slot,
the CurrentNodeContext scope manager, the is_output_needed query and
the expected-outputs analyzer over the graph model.

The ambient slot (a contextvars.ContextVar holding an optional
ExecutionContext, default None) is embedded as an explicit state of type
Option ExecutionContext threaded through the operations; a ContextVar
token is embedded as the saved previous value that reset restores.
-/

namespace ComfyExec

/-- Embeds the NamedTuple ExecutionContext of comfy_execution/utils.py:
prompt_id, node_id, optional list_index, optional expected_outputs
(a frozenset of output indices, defaulting to None). -/
structure ExecutionContext where
  prompt_id : String
  node_id : String
  list_index : Option Int
  expected_outputs : Option (Finset Int) := none
  deriving DecidableEq

/-- The value held by the ContextVar current_executing_context for one
task: either None (no scope active) or the innermost published context. -/
def ContextSlot := Option ExecutionContext

instance : DecidableEq ContextSlot := by
  unfold ContextSlot
  infer_instance

/-- Embeds get_executing_context: current_executing_context.get(None),
reading the ambient slot of the calling task. -/
def get_executing_context (slot : ContextSlot) : Option ExecutionContext :=
  slot

/-- Embeds is_output_needed of comfy_execution/utils.py: True when no
context is active or the active context has expected_outputs None,
otherwise membership of the index in the expected_outputs set. -/
def is_output_needed (output_index : Int) (slot : ContextSlot) : Bool :=
  match get_executing_context slot with
  | none => true
  | some ctx =>
    match ctx.expected_outputs with
    | none => true
    | some s => output_index ∈ s

/-- Embeds is_output_needed in an error monad mirroring Python
evaluation step by step: each operation of the body (the ambient read,
the None tests, the frozenset membership) is total in Python, so no
branch produces an error value. -/
def is_output_needed_impl (output_index : Int) (slot : ContextSlot) :
    Except String Bool :=
  let ctx := get_executing_context slot
  match ctx with
  | none => Except.ok true
  | some c =>
    match c.expected_outputs with
    | none => Except.ok true
    | some s => Except.ok (decide (output_index ∈ s))

/-- Embeds the CurrentNodeContext context-manager object: the context
built by init and the token saved by enter (None until enter runs;
after enter, the previous slot value that exit will restore). -/
structure CurrentNodeContext where
  context : ExecutionContext
  token : Option ContextSlot
  deriving DecidableEq

/-- Embeds CurrentNodeContext.init of comfy_execution/utils.py: builds
the ExecutionContext from the four arguments (list_index and
expected_outputs default to None) and sets token to None. The body
performs no validation of any argument. -/
def CurrentNodeContext.init (prompt_id node_id : String)
    (list_index : Option Int := none)
    (expected_outputs : Option (Finset Int) := none) : CurrentNodeContext :=
  { context :=
      { prompt_id := prompt_id
        node_id := node_id
        list_index := list_index
        expected_outputs := expected_outputs }
    token := none }

/-- Embeds CurrentNodeContext.init in an error monad mirroring Python
evaluation: the body only constructs a NamedTuple and assigns two
attributes, none of which can raise, so the result is always ok. -/
def CurrentNodeContext.initChecked (prompt_id node_id : String)
    (list_index : Option Int := none)
    (expected_outputs : Option (Finset Int) := none) :
    Except String CurrentNodeContext :=
  Except.ok (CurrentNodeContext.init prompt_id node_id list_index expected_outputs)

/-- Embeds CurrentNodeContext.enter: current_executing_context.set
returns a token recording the previous value; the slot becomes the
built context. Returns the updated manager object and the new slot. -/
def CurrentNodeContext.enter (c : CurrentNodeContext) (slot : ContextSlot) :
    CurrentNodeContext × ContextSlot :=
  ({ c with token := some slot }, some c.context)

/-- Embeds CurrentNodeContext.exit: if the token is not None, reset the
ContextVar through it, restoring the value saved at set time; otherwise
leave the slot untouched. -/
def CurrentNodeContext.exit (c : CurrentNodeContext) (slot : ContextSlot) :
    ContextSlot :=
  match c.token with
  | none => slot
  | some saved => saved

/-- The outcome of a scoped block: the body either returns normally
with a final slot state, or raises an error value, propagating with the
slot state at raise time. -/
def BlockResult (E : Type) := Except (E × ContextSlot) ContextSlot

/-- Embeds the Python with-statement over a CurrentNodeContext: build
the manager, run enter, run the body on the published slot, and on
both the normal path and the error path run exit before returning or
re-raising. -/
def withScope {E : Type} (prompt_id node_id : String)
    (list_index : Option Int) (expected_outputs : Option (Finset Int))
    (body : ContextSlot → BlockResult E) (slot : ContextSlot) :
    BlockResult E :=
  let cnc := CurrentNodeContext.init prompt_id node_id list_index expected_outputs
  let entered := cnc.enter slot
  match body entered.2 with
  | Except.ok slot2 => Except.ok (entered.1.exit slot2)
  | Except.error (e, slot2) => Except.error (e, entered.1.exit slot2)

/-- The ambient slot visible after a scoped block finishes, on either
the normal-return path or the error-propagation path. -/
def scopeResultSlot {E : Type} : BlockResult E → ContextSlot
  | Except.ok slot => slot
  | Except.error (_, slot) => slot

/-- Entering a sequence of scopes in order, never exiting: the slot
after each enter feeds the next. Used to express nesting depth. -/
def enterScopes (cs : List ExecutionContext) (slot : ContextSlot) : ContextSlot :=
  cs.foldl (fun s c => ((CurrentNodeContext.mk c none).enter s).2) slot

/-- Modelled from the spec: the Input Value of the Graph Model, a
tagged union of a Literal (an opaque scalar value, not a graph
reference) and a Link (producer node id, output index). The analyzer
implementation in comfy_execution/graph.py is not among the provided
source files; only its unit tests are, so this follows section 3 of
the spec and the JSON shapes used by those tests. -/
inductive InputValue where
  | literal (v : String ⊕ Int)
  | link (producer : String) (index : Int)
  deriving DecidableEq

/-- Modelled from the spec: a Node descriptor of the Graph Model, a
type tag and a mapping from input name to Input Value. -/
structure GraphNode where
  class_type : String
  inputs : List (String × InputValue)
  deriving DecidableEq

/-- Modelled from the spec: the Graph, a mapping from node identifier
to Node descriptor, embedded as an association list. -/
abbrev Graph := List (String × GraphNode)

/-- Modelled from the spec: the Expected-Outputs Analyzer
get_expected_outputs_for_node (whose implementation file
comfy_execution/graph.py is missing from the provided sources): scan
every input of every node in the graph; for each Link whose producer
equals the queried node id, insert its output index into the result
set; literal inputs are ignored; an absent node id simply finds no
links and yields the empty set. -/
def get_expected_outputs_for_node (g : Graph) (node_id : String) : Finset Int :=
  g.foldl
    (fun acc entry =>
      entry.2.inputs.foldl
        (fun acc2 inp =>
          match inp.2 with
          | InputValue.literal _ => acc2
          | InputValue.link producer index =>
              if producer = node_id then insert index acc2 else acc2)
        acc)
    ∅

/-- One inner fold step over the inputs of a single node. -/
def inputStep (node_id : String) (acc : Finset Int) (inp : String × InputValue) :
    Finset Int :=
  match inp.2 with
  | InputValue.literal _ => acc
  | InputValue.link producer index =>
      if producer = node_id then insert index acc else acc

lemma inputs_foldl_eq (node_id : String) (l : List (String × InputValue))
    (acc : Finset Int) :
    l.foldl
      (fun acc2 inp =>
        match inp.2 with
        | InputValue.literal _ => acc2
        | InputValue.link producer index =>
            if producer = node_id then insert index acc2 else acc2)
      acc = l.foldl (inputStep node_id) acc := by
  rfl

lemma mem_inputStep_foldl (node_id : String) (l : List (String × InputValue))
    (acc : Finset Int) (i : Int) :
    i ∈ l.foldl (inputStep node_id) acc ↔
      i ∈ acc ∨ ∃ nm, (nm, InputValue.link node_id i) ∈ l := by
  induction l generalizing acc with
  | nil => simp
  | cons hd tl ih =>
    rcases hd with ⟨nm, iv⟩
    cases iv with
    | literal v =>
      simp only [List.foldl_cons, inputStep, ih, List.mem_cons, Prod.mk.injEq]
      aesop
    | link p j =>
      by_cases hp : p = node_id
      · subst hp
        simp only [List.foldl_cons, inputStep, if_pos rfl, ih, Finset.mem_insert,
          List.mem_cons, Prod.mk.injEq, InputValue.link.injEq]
        aesop
      · simp only [List.foldl_cons, inputStep, if_neg hp, ih, List.mem_cons,
          Prod.mk.injEq, InputValue.link.injEq]
        aesop

lemma mem_expected_outputs_aux (node_id : String) (g : Graph)
    (acc : Finset Int) (i : Int) :
    i ∈ g.foldl
        (fun acc entry =>
          entry.2.inputs.foldl
            (fun acc2 inp =>
              match inp.2 with
              | InputValue.literal _ => acc2
              | InputValue.link producer index =>
                  if producer = node_id then insert index acc2 else acc2)
            acc)
        acc ↔
      i ∈ acc ∨ ∃ cid node nm, (cid, node) ∈ g ∧
        (nm, InputValue.link node_id i) ∈ node.inputs := by
  induction g generalizing acc with
  | nil => simp
  | cons hd tl ih =>
    rcases hd with ⟨cid0, node0⟩
    rw [List.foldl_cons, ih, inputs_foldl_eq, mem_inputStep_foldl]
    constructor
    · rintro ((h | ⟨nm, h⟩) | ⟨cid, node, nm, hmem, hin⟩)
      · exact Or.inl h
      · exact Or.inr ⟨cid0, node0, nm, List.mem_cons_self _ _, h⟩
      · exact Or.inr ⟨cid, node, nm, List.mem_cons_of_mem _ hmem, hin⟩
    · rintro (h | ⟨cid, node, nm, hmem, hin⟩)
      · exact Or.inl (Or.inl h)
      · rcases List.mem_cons.mp hmem with heq | htl
        · rcases Prod.ext_iff.mp heq with ⟨h1, h2⟩
          subst h2
          exact Or.inl (Or.inr ⟨nm, hin⟩)
        · exact Or.inr ⟨cid, node, nm, htl, hin⟩

/-- Membership characterization of the analyzer result: an index is in
the set exactly when some node in the graph has an input that is a
Link to the queried producer at that index. -/
lemma mem_expected_outputs (g : Graph) (node_id : String) (i : Int) :
    i ∈ get_expected_outputs_for_node g node_id ↔
      ∃ cid node nm, (cid, node) ∈ g ∧
        (nm, InputValue.link node_id i) ∈ node.inputs := by
  rw [get_expected_outputs_for_node, mem_expected_outputs_aux]
  simp

/-!
Concurrency model. current_executing_context is a contextvars.ContextVar;
per the contextvars semantics every task or thread operates on its own
Context, so the ambient slot is one ContextSlot per task, never a
process-wide shared cell. A system run of two tasks is an arbitrary
interleaving of the primitive ContextVar operations the scope manager
performs: set (the body of enter), reset (the body of exit) and get
(the body of get_executing_context, which records an observation).
-/

/-- A primitive operation of one task on its own ambient slot: set
(performed by enter, publishing a context), reset through a token
(performed by exit, restoring the saved value), or get (performed by
get_executing_context, producing an observation). -/
inductive VarAction where
  | set (ctx : ExecutionContext)
  | reset (saved : ContextSlot)
  | get
  deriving DecidableEq

/-- The global state of the two-task system: one ambient slot for each
task, indexed by a Boolean task identifier. -/
def TwoTaskState := Bool → ContextSlot

/-- Writes the slot of one task, leaving the slot of the other task unchanged. -/
def writeSlot (st : TwoTaskState) (t : Bool) (v : ContextSlot) : TwoTaskState :=
  fun u => if u = t then v else st u

/-- Runs an interleaved schedule of steps, each step being a task
identifier and the ContextVar operation that task performs; collects
the observations made by get steps, tagged with the observing task. -/
def runTrace : List (Bool × VarAction) → TwoTaskState →
    List (Bool × ContextSlot)
  | [], _ => []
  | (t, VarAction.set c) :: rest, st =>
      runTrace rest (writeSlot st t (some c))
  | (t, VarAction.reset v) :: rest, st =>
      runTrace rest (writeSlot st t v)
  | (t, VarAction.get) :: rest, st =>
      (t, st t) :: runTrace rest st

/-- Runs the operations of one task alone over a single slot, collecting
the values its get steps observe. -/
def taskView : List VarAction → ContextSlot → List ContextSlot
  | [], _ => []
  | VarAction.set c :: rest, _ => taskView rest (some c)
  | VarAction.reset v :: rest, _ => taskView rest v
  | VarAction.get :: rest, s => s :: taskView rest s

/-- The operations a given task contributes to a schedule, in order. -/
def stepsOf (t : Bool) (l : List (Bool × VarAction)) : List VarAction :=
  (l.filter (fun step => step.1 = t)).map (fun step => step.2)

lemma writeSlot_same (st : TwoTaskState) (t : Bool) (v : ContextSlot) :
    writeSlot st t v t = v := by
  simp [writeSlot]

lemma writeSlot_other (st : TwoTaskState) (t u : Bool) (v : ContextSlot)
    (h : u ≠ t) : writeSlot st t v u = st u := by
  simp [writeSlot, h]

lemma stepsOf_cons_same (t : Bool) (a : VarAction)
    (l : List (Bool × VarAction)) :
    stepsOf t ((t, a) :: l) = a :: stepsOf t l := by
  simp [stepsOf]

lemma stepsOf_cons_other (t u : Bool) (a : VarAction)
    (l : List (Bool × VarAction)) (h : u ≠ t) :
    stepsOf t ((u, a) :: l) = stepsOf t l := by
  simp [stepsOf, h]

/-!
Claim theorems.
-/

/-- Claim C1: for every prior ambient context (another ExecutionContext
or none) and every scope opened via CurrentNodeContext, after the scope
exits, whether the scoped block returns normally or raises, the ambient
slot read by get_executing_context is exactly the prior value again.
The body is arbitrary, so in particular it may itself open and exit
nested scopes to any depth: instantiating the prior slot with the
context published by an outer scope shows that exiting an inner scope
reveals the outer context unchanged, never none and never stale. -/
theorem C1_scope_restores_prior_context {E : Type}
    (prompt_id node_id : String) (list_index : Option Int)
    (expected_outputs : Option (Finset Int))
    (body : ContextSlot → BlockResult E) (slot : ContextSlot) :
    scopeResultSlot
      (withScope prompt_id node_id list_index expected_outputs body slot) =
      slot := by
  simp only [withScope, CurrentNodeContext.enter]
  rcases hb : body (some (CurrentNodeContext.init prompt_id node_id list_index
      expected_outputs).context) with ⟨e, s2⟩ | s2 <;>
    simp [hb, scopeResultSlot, CurrentNodeContext.exit]

/-- Claim C2: for every integer output index i, is_output_needed is
true when no context is active; true when a context is active with
expected_outputs None; and when a context is active with
expected_outputs present (including present-but-empty), it equals
membership of i in that set. -/
theorem C2_is_output_needed_cases (i : Int) :
    is_output_needed i none = true ∧
    (∀ (p n : String) (li : Option Int),
      is_output_needed i (some (ExecutionContext.mk p n li none)) = true) ∧
    (∀ (p n : String) (li : Option Int) (s : Finset Int),
      is_output_needed i (some (ExecutionContext.mk p n li (some s))) =
        decide (i ∈ s)) :=
  ⟨rfl, fun _ _ _ => rfl, fun _ _ _ _ => rfl⟩

/-- Claim C3: for every graph and node id, the analyzer result contains
an index exactly when at least one Link in the graph has that producer
id and that index; set semantics makes repeated consuming Links
collapse to one membership, and literal inputs never contribute since
only the link constructor can witness the right side. -/
theorem C3_expected_outputs_exact (g : Graph) (n : String) (i : Int) :
    i ∈ get_expected_outputs_for_node g n ↔
      ∃ cid node nm, (cid, node) ∈ g ∧
        (nm, InputValue.link n i) ∈ node.inputs :=
  mem_expected_outputs g n i

/-- Claim C4 counterexample: opening a scope with the negative list
index -1 does not fail at entry; init succeeds (the error monad result
is ok) and enter publishes a context carrying list_index -1. -/
theorem C4_counterexample :
    CurrentNodeContext.initChecked "p" "n" (some (-1)) none =
      Except.ok
        (CurrentNodeContext.mk
          (ExecutionContext.mk "p" "n" (some (-1)) none) none) ∧
    ((CurrentNodeContext.init "p" "n" (some (-1)) none).enter none).2 =
      some (ExecutionContext.mk "p" "n" (some (-1)) none) :=
  ⟨rfl, rfl⟩

/-- Claim C4 amended: opening a scope with any list index, negative
included, performs no validation: construction always succeeds and the
scope publishes a context carrying exactly the given value. -/
theorem C4_amended_no_validation (p n : String) (i : Int)
    (eo : Option (Finset Int)) (slot : ContextSlot) :
    CurrentNodeContext.initChecked p n (some i) eo =
      Except.ok (CurrentNodeContext.init p n (some i) eo) ∧
    ((CurrentNodeContext.init p n (some i) eo).enter slot).2 =
      some (ExecutionContext.mk p n (some i) eo) :=
  ⟨rfl, rfl⟩

/-- Claim C5: for a node id that does not occur as a key of the graph,
in a graph whose Links all reference existing keys (graph validity per
section 3 of the spec), and hence for any node id with no consumers,
the analyzer returns the empty set; the definition is total, so no
error is raised. -/
theorem C5_absent_node_empty (g : Graph) (n : String)
    (hkey : ∀ node : GraphNode, (n, node) ∉ g)
    (hclosed : ∀ cid node nm p i, (cid, node) ∈ g →
      (nm, InputValue.link p i) ∈ node.inputs → ∃ nd, (p, nd) ∈ g) :
    get_expected_outputs_for_node g n = ∅ := by
  ext i
  simp only [Finset.not_mem_empty, iff_false]
  rw [mem_expected_outputs]
  rintro ⟨cid, node, nm, hmem, hin⟩
  obtain ⟨nd, hnd⟩ := hclosed cid node nm n i hmem hin
  exact hkey nd hnd

/-- Witness for claim C5, the concrete graph of test_node_not_in_prompt:
a one-node graph queried for the absent id 999 yields the empty set. -/
theorem C5_absent_node_empty_witness :
    get_expected_outputs_for_node [("1", GraphNode.mk "SourceNode" [])] "999" =
      ∅ :=
  C5_absent_node_empty _ _
    (by
      rintro node h
      have h2 := List.mem_singleton.mp h
      have h3 : "999" = "1" := congrArg Prod.fst h2
      exact absurd h3 (by decide))
    (by
      rintro cid node nm p i hmem hin
      have h2 := List.mem_singleton.mp hmem
      have hn : node = GraphNode.mk "SourceNode" [] :=
        congrArg Prod.snd h2
      rw [hn] at hin
      simp at hin)

/-- Claim C6: for any interleaved schedule of two tasks performing
ContextVar operations on the per-task ambient slot, the observations a
task makes through get are exactly those of running its own operations
alone on its own slot: each task observes only its own chain of
activations, never the other task, regardless of interleaving. -/
theorem C6_task_isolation (l : List (Bool × VarAction)) (t : Bool)
    (st : TwoTaskState) :
    (runTrace l st).filter (fun obs => obs.1 = t) =
      (taskView (stepsOf t l) (st t)).map (fun v => (t, v)) := by
  induction l generalizing st with
  | nil => simp [runTrace, stepsOf, taskView]
  | cons hd tl ih =>
    rcases hd with ⟨u, a⟩
    by_cases hu : u = t
    · subst hu
      cases a with
      | set c =>
        rw [runTrace, stepsOf_cons_same, taskView, ih, writeSlot_same]
      | reset v =>
        rw [runTrace, stepsOf_cons_same, taskView, ih, writeSlot_same]
      | get =>
        rw [runTrace, stepsOf_cons_same, taskView]
        simp only [List.filter_cons, decide_eq_true_eq, if_true, List.map]
        rw [ih]
    · cases a with
      | set c =>
        rw [runTrace, stepsOf_cons_other _ _ _ _ hu, ih,
          writeSlot_other st u t (some c) (Ne.symm hu)]
      | reset v =>
        rw [runTrace, stepsOf_cons_other _ _ _ _ hu, ih,
          writeSlot_other st u t v (Ne.symm hu)]
      | get =>
        rw [runTrace, stepsOf_cons_other _ _ _ _ hu]
        simp only [List.filter_cons, decide_eq_true_eq, hu, if_false]
        rw [ih]

/-- Claim C7: is_output_needed is total: for every integer index and
every state of the ambient slot (none, context with expected_outputs
absent, or context with any expected-outputs set), the step-by-step
error-monad embedding of the body returns ok with a boolean, never an
error value. -/
theorem C7_is_output_needed_total (i : Int) (slot : ContextSlot) :
    is_output_needed_impl i slot = Except.ok (is_output_needed i slot) := by
  rcases slot with _ | ⟨p, n, li, eo⟩
  · rfl
  · rcases eo with _ | s <;> rfl

/-- Claim C8: get_executing_context returns none when no scope is
active, and when one or more scopes have been entered it returns the
context of the innermost (most recently entered) scope. -/
theorem C8_none_or_innermost :
    get_executing_context (none : ContextSlot) = none ∧
    ∀ (cs : List ExecutionContext) (c : ExecutionContext) (slot : ContextSlot),
      get_executing_context (enterScopes (cs ++ [c]) slot) = some c := by
  refine ⟨rfl, fun cs c slot => ?_⟩
  simp [enterScopes, List.foldl_append, CurrentNodeContext.enter,
    get_executing_context]

/-- Claim C9: calling exit on a CurrentNodeContext whose enter was
never invoked (its saved token is still None) is a no-op: the definition
is total, raising nothing, and the ambient slot is left exactly as it
was. -/
theorem C9_exit_without_enter_noop (c : CurrentNodeContext)
    (slot : ContextSlot) (h : c.token = none) : c.exit slot = slot := by
  simp [CurrentNodeContext.exit, h]

/-- Witness for claim C9: a freshly initialized manager, never entered,
leaves a concrete ambient slot unchanged on exit. -/
theorem C9_exit_without_enter_noop_witness :
    (CurrentNodeContext.init "p" "n" none none).exit
        (some (ExecutionContext.mk "q" "m" none none)) =
      some (ExecutionContext.mk "q" "m" none none) :=
  C9_exit_without_enter_noop _ _ rfl

/-- Claim C10: opening a CurrentNodeContext with only prompt_id and
node_id builds a context whose list_index and expected_outputs are both
None, and inside that scope is_output_needed is true for every output
index. -/
theorem C10_default_args (p n : String) (i : Int) (slot : ContextSlot) :
    (CurrentNodeContext.init p n).context.list_index = none ∧
    (CurrentNodeContext.init p n).context.expected_outputs = none ∧
    is_output_needed i ((CurrentNodeContext.init p n).enter slot).2 = true :=
  ⟨rfl, rfl, rfl⟩

end ComfyExec
